import Mathlib

/-!
A shallow embedding of `sagids/grid.py` (the SaGiDS grid game) and proofs of
its specification's claims.

Modelling conventions:
* Python `Fraction` is `ℚ` (both keep a normalised numerator/denominator).
* Grid coordinates (`turtle.Vec2D` holding small integers) are `ℤ × ℤ`.
* The grid's cell mapping `dict[pos, Cell]` with `cells[pos].spot == pos` is
  represented by its key list in insertion order (`List Spot`); the cell at a
  spot `s` is `Cell.mk s`.
* Python operations that can raise (`IndexError` from `random.choice([])`,
  `KeyError` from a missing spot, `ValueError` from an oversized
  `random.sample`) return `Option` and yield `none` on the raising input.
* The nondeterminism of `random` is an injected stream `rng : ℕ → ℕ` of draws,
  consumed through a running counter; an index draw `k` selects position
  `k % length` of the sequence being drawn from.
-/

namespace Sagids

/-- A grid coordinate (a `turtle.Vec2D` holding integers). -/
abbrev Spot := ℤ × ℤ

/-- `tuple(i // 2 for i in spot)`: the quadrant of a spot (Python floor
division, `Int.fdiv`). -/
def spotQuad (s : Spot) : Spot := (Int.fdiv s.1 2, Int.fdiv s.2 2)

/-- `Grid.Cell`: a frozen dataclass holding one coordinate. -/
structure Cell where
  spot : Spot
deriving DecidableEq, Repr

instance : Inhabited Cell := ⟨⟨(0, 0)⟩⟩

/-- `Cell.value`: the fixed table on `(x mod 2, y mod 2)`:
`(0,0) ↦ 1, (0,1) ↦ 7, (1,0) ↦ 3, (1,1) ↦ 5`. -/
def Cell.value (c : Cell) : ℕ :=
  if c.spot.1 % 2 = 0 then (if c.spot.2 % 2 = 0 then 1 else 7)
  else (if c.spot.2 % 2 = 0 then 3 else 5)

/-- `Cell.transits`: `vector = cell.spot - self.spot;
abs(vector[0]) == abs(vector[1])`. -/
def Cell.transits (self cell : Cell) : Bool :=
  (cell.spot.1 - self.spot.1).natAbs == (cell.spot.2 - self.spot.2).natAbs

/-- `Grid.Marker` once placed: `value` and `cell` both set, as the option
generator and the game loop require (they read `self.value.numerator`,
`m.cell`, … unconditionally). -/
structure Marker where
  id : ℕ
  value : ℚ
  cell : Cell
deriving DecidableEq, Repr

instance : Inhabited Marker := ⟨⟨0, 0, default⟩⟩

/-- `Grid.Marker` as the dataclass builds it: `value` and `cell` default to
`None`. -/
structure ProtoMarker where
  id : ℕ
  value : Option ℚ := none
  cell : Option Cell := none
deriving DecidableEq, Repr

instance : Inhabited ProtoMarker := ⟨⟨0, none, none⟩⟩

/-- The grid: markers in dict insertion order and the key list of the cell
mapping (the cell stored at spot `s` is `Cell.mk s`). -/
structure Grid where
  markers : List ProtoMarker
  cells : List Spot
deriving DecidableEq, Repr

/-- `Marker.zone` of a placed marker: the spots of the grid's cell mapping
whose quadrant equals the quadrant of the marker's cell, in insertion
order. -/
def zone (cells : List Spot) (c : Cell) : List Spot :=
  cells.filter fun s => spotQuad s == spotQuad c.spot

/-- `Fraction(num, den)` for a positive denominator: the normalised rational
`num / den`.  (`mkRat` divides out the gcd, exactly as `Fraction` does.) -/
def frac (num : ℤ) (den : ℕ) : ℚ := mkRat num den

/-- `Fraction.__mul__`: multiply numerators and denominators and normalise.
Agrees with multiplication on `ℚ` (`fracMul_eq_mul` below). -/
def fracMul (a b : ℚ) : ℚ := mkRat (a.num * b.num) (a.den * b.den)

/-- The generator loop of `Marker.results`: one step per pair `(n, d)` of
`zip(range(0, cardinal+1), range(cardinal, -1, -1))`, yielding
`Fraction((num + n) % 10, (den + d) % 10)` and skipping the pair when the
denominator is 0 (`ZeroDivisionError`). -/
def resultsAux (num : ℤ) (den : ℕ) : List (ℕ × ℕ) → List ℚ
  | [] => []
  | (n, d) :: rest =>
      let dd := (den + d) % 10
      if dd = 0 then resultsAux num den rest
      else frac ((num + (n : ℤ)) % 10) dd :: resultsAux num den rest

/-- `Marker.results(cardinal)` for a marker whose set value is `v`
(`v.num`, `v.den` are the stored numerator and denominator of the
`Fraction`). -/
def results (v : ℚ) (cardinal : ℕ) : List ℚ :=
  resultsAux v.num v.den
    ((List.range (cardinal + 1)).zip (List.range (cardinal + 1)).reverse)

/-- The `Grid.Option` namedtuple; `transit` and `total` default to `None`.
(The Python record holds a reference to the mutable marker objects; here the
fields are snapshots taken at creation, whose `id` identifies the marker.) -/
structure Opt where
  marker : Marker
  cell : Cell
  result : ℚ
  transit : Option Marker := none
  total : Option ℚ := none
deriving DecidableEq, Repr

instance : Inhabited Opt := ⟨⟨default, default, 0, none, none⟩⟩

/-- The inner loop of `Marker.options`: one Option per transit marker, with
`val = r * t.value`. -/
def transitOpts (self : Marker) (cell : Cell) (r : ℚ) : List Marker → List Opt
  | [] => []
  | t :: ts => ⟨self, cell, r, some t, some (fracMul r t.value)⟩ :: transitOpts self cell r ts

/-- The outer generator loop of `Marker.options`: for each result `r`, first
the bare Option, then the transit combinations. -/
def optionsGo (self : Marker) (cell : Cell) (ts : List Marker) : List ℚ → List Opt
  | [] => []
  | r :: rs =>
      ⟨self, cell, r, none, none⟩ ::
        (transitOpts self cell r ts ++ optionsGo self cell ts rs)

/-- `Marker.options(cell)`: `transits` is the list of the grid's other
markers (`m is not self`, i.e. a different id, ids being the unique dict
keys) whose current cell transits the destination cell. -/
def options (markers : List Marker) (self : Marker) (cell : Cell) : List Opt :=
  let ts := markers.filter fun m => m.id != self.id && m.cell.transits cell
  optionsGo self cell ts (results self.value cell.value)

/-- The candidate list one marker collects during its turn in `game`: the
Options of every cell of its zone other than its current cell, in zone
order. -/
def collectOptions (cells : List Spot) (markers : List Marker) (m : Marker) : List Opt :=
  ((zone cells m.cell).filter fun s => s != m.cell.spot).flatMap fun s =>
    options markers m ⟨s⟩

/-- The selection in `game`:
`next((i for i in options if i.total == goal), random.choice(options))`.
`random.choice` is evaluated eagerly as the default argument, so an empty
candidate list raises `IndexError` (`none`) even when a goal Option exists;
otherwise the first Option whose `total` equals the goal is chosen, and in
its absence the Option at the drawn index `k % length`. -/
def select (goal : ℚ) (opts : List Opt) (k : ℕ) : Option Opt :=
  if opts.isEmpty then none
  else some (match opts.find? (fun o => o.total == some goal) with
    | some o => o
    | none => opts.getD (k % opts.length) default)

/-- One marker's turn in `game`: collect the candidates, select, then move
the acting marker to the chosen cell and give it the chosen result value. -/
def markerTurn (cells : List Spot) (goal : ℚ) (markers : List Marker) (i : ℕ) (k : ℕ) :
    Option (List Marker × Opt) := do
  let m := markers.getD i default
  let chosen ← select goal (collectOptions cells markers m) k
  some (markers.set i { m with cell := chosen.cell, value := chosen.result }, chosen)

/-- The `for marker in grid.markers.values()` pass of `game`: `rem` markers
still to act, `i` the index of the next one, `c` the running count of random
draws, `acc` the move log so far.  Returns the markers, the log, whether the
pass ended in a win, and the updated draw count; `none` on `IndexError`. -/
def runTurnAux (cells : List Spot) (goal : ℚ) (rng : ℕ → ℕ) :
    ℕ → List Marker → ℕ → ℕ → List Opt → Option (List Marker × List Opt × Bool × ℕ)
  | 0, markers, _, c, acc => some (markers, acc, false, c)
  | rem + 1, markers, i, c, acc => do
      let (ms, chosen) ← markerTurn cells goal markers i (rng c)
      if chosen.total == some goal then some (ms, acc ++ [chosen], true, c + 1)
      else runTurnAux cells goal rng rem ms (i + 1) (c + 1) (acc ++ [chosen])

/-- The `while n < limit` loop of `game`; the fuel is `limit - n`. -/
def gameAux (cells : List Spot) (goal : ℚ) (rng : ℕ → ℕ) :
    ℕ → List Marker → ℕ → List Opt → Option (List Opt × Bool)
  | 0, _, _, acc => some (acc, false)
  | fuel + 1, markers, c, acc => do
      let (ms, moves, won, cc) ← runTurnAux cells goal rng markers.length markers 0 c acc
      if won then some (moves, true) else gameAux cells goal rng fuel ms cc moves

/-- `game(grid, limit, goal)` on a grid whose markers are all placed: returns
the move log and whether the run ended in a win (`true`) or by exhausting the
turn limit (`false`); `none` when a marker's turn had no candidate Options
(`IndexError` from `random.choice([])`). -/
def game (cells : List Spot) (markers : List Marker) (limit : ℕ) (goal : ℚ)
    (rng : ℕ → ℕ) : Option (List Opt × Bool) :=
  gameAux cells goal rng limit markers 0 []

/-- The `while len(markers) < len(self.markers)` loop of `Grid.partition`.
`acc` holds the accepted cells (as spots), `pool` the remaining candidate
cells, `c` the count of random draws.  A drawn cell is rejected (and stays in
the pool) when it transits an accepted cell; on acceptance its whole zone is
removed from the pool.  (The source's other rejection test,
`any(cell in m.zone for m in markers)`, compares a `Cell` against the spot
tuples of `m.zone` and is therefore always `False` in Python — zone
disjointness is enforced by the pool subtraction alone.)  `none` models
`IndexError` on an empty pool; the fuel models the unbounded retry loop. -/
def partitionLoop (cells : List Spot) (n : ℕ) (rng : ℕ → ℕ) :
    ℕ → List Spot → List Spot → ℕ → Option (List Spot)
  | 0, _, _, _ => none
  | fuel + 1, acc, pool, c =>
      if n ≤ acc.length then some acc
      else if pool.isEmpty then none
      else
        let cell := pool.getD (rng c % pool.length) (0, 0)
        if acc.any (fun a => Cell.transits ⟨cell⟩ ⟨a⟩) then
          partitionLoop cells n rng fuel acc pool (c + 1)
        else
          partitionLoop cells n rng fuel (acc ++ [cell])
            (pool.filter fun p => !(zone cells ⟨cell⟩).contains p) (c + 1)

/-- `Grid.partition()` for a grid with `nMarkers` markers: the initial pool is
`set(self.cells.values())`. -/
def partition (cells : List Spot) (nMarkers : ℕ) (rng : ℕ → ℕ) (fuel : ℕ) :
    Option (List Spot) :=
  partitionLoop cells nMarkers rng fuel [] cells.dedup 0

/-- The `zip(args, self.markers.values())` loop of `Grid.mark`: each paired
marker's cell is set to the grid-owned cell at the supplied cell's spot
(`self.cells[cell.spot]`, `none` on `KeyError`); the zip stops at the shorter
sequence. -/
def markZip (cells : List Spot) : List Cell → List ProtoMarker → Option (List ProtoMarker)
  | [], ms => some ms
  | _, [] => some []
  | a :: rest, m :: ms =>
      if cells.contains a.spot then
        (markZip cells rest ms).map fun r => { m with cell := some ⟨a.spot⟩ } :: r
      else none

/-- `Grid.mark(*args)`. -/
def mark (g : Grid) (args : List Cell) : Option Grid :=
  (markZip g.cells args g.markers).map fun ms => { g with markers := ms }

/-- The population `[Fraction(n, 9) for n in [1, 2, 4, 5, 7, 8]]` sampled by
`Grid.build_markers`. -/
def markerValues : List ℚ :=
  [frac 1 9, frac 2 9, frac 4 9, frac 5 9, frac 7 9, frac 8 9]

/-- `random.sample(population, k)`: `k` rng-driven draws without replacement;
`none` when `k` exceeds the population size (`ValueError`). -/
def sampleList (rng : ℕ → ℕ) : ℕ → List ℚ → ℕ → Option (List ℚ)
  | 0, _, _ => some []
  | k + 1, pop, c =>
      if pop.isEmpty then none
      else
        let i := rng c % pop.length
        (sampleList rng k (pop.eraseIdx i) (c + 1)).map fun r => pop.getD i 0 :: r

/-- `Grid.build_markers(k)`: markers with ids `1..k` and sampled values. -/
def build_markers (rng : ℕ → ℕ) (k : ℕ) : Option (List ProtoMarker) :=
  (sampleList rng k markerValues 0).map fun vs =>
    vs.enum.map fun nv => { id := nv.1 + 1, value := some nv.2, cell := none }

/-- Structural integer square root (`⌊√n⌋`), fuelled for kernel reduction. -/
def isqrtFuel : ℕ → ℕ → ℕ
  | 0, _ => 0
  | f + 1, n =>
      if n = 0 then 0
      else
        let s := 2 * isqrtFuel f (n / 4)
        if (s + 1) * (s + 1) ≤ n then s + 1 else s

/-- `⌊√n⌋`. -/
def isqrt (n : ℕ) : ℕ := isqrtFuel n n

/-- Number of decimal digits of `n` (0 for 0), fuelled for kernel reduction. -/
def nDigitsFuel : ℕ → ℕ → ℕ
  | 0, _ => 0
  | f + 1, n => if n = 0 then 0 else nDigitsFuel f (n / 10) + 1

/-- Number of decimal digits of `n` (0 for 0). -/
def nDigits (n : ℕ) : ℕ := nDigitsFuel n n

/-- Round a rational to the nearest integer, ties to even
(`ROUND_HALF_EVEN`), computed on the numerator and denominator. -/
def roundHE (x : ℚ) : ℤ :=
  let f := x.num.fdiv x.den
  let r2 := 2 * (x.num - f * (x.den : ℤ))
  if r2 < (x.den : ℤ) then f
  else if (x.den : ℤ) < r2 then f + 1
  else if f % 2 = 0 then f else f + 1

/-- Round a rational `1 ≤ x` to 28 significant decimal digits with ties to
even: the default `decimal` context applied to an exact value. -/
def round28 (x : ℚ) : ℚ :=
  let e := nDigits (x.num.fdiv x.den).toNat - 1
  if e ≤ 27 then
    let a := 27 - e
    mkRat (roundHE (mkRat (x.num * (10 ^ a : ℕ)) x.den)) (10 ^ a)
  else
    let b := e - 27
    (((roundHE (mkRat x.num (x.den * 10 ^ b))) * (10 ^ b : ℕ) : ℤ) : ℚ)

/-- `Decimal(n).sqrt()` (context precision 28, `ROUND_HALF_EVEN`): the
correctly rounded 28-significant-digit value of `√n`, as an exact rational.
For `⌊√n⌋` of at most 28 digits a tie is impossible (`√N = s + 1/2` has no
integer solution); beyond that the rounding is to a multiple of `10 ^ b`. -/
def sqrtDec (n : ℕ) : ℚ :=
  if n = 0 then 0
  else
    let L := nDigits (isqrt n)
    if L ≤ 28 then
      let a := 28 - L
      let N := n * 10 ^ (2 * a)
      let s := isqrt N
      mkRat (if N ≤ s * s + s then (s : ℤ) else (s : ℤ) + 1) (10 ^ a)
    else
      let b := L - 28
      let t := isqrt n / 10 ^ b
      let B := (2 * t + 1) * 10 ^ b
      let t' := if 4 * n < B * B then t
                else if B * B < 4 * n then t + 1
                else if t % 2 = 0 then t else t + 1
      ((t' * 10 ^ b : ℕ) : ℚ)

/-- `Decimal.__mul__` under the default context: the exact product rounded to
28 significant digits. -/
def mulDec (x y : ℚ) : ℚ := round28 (mkRat (x.num * y.num) (x.den * y.den))

/-- `int(Decimal(a).sqrt() * Decimal(b).sqrt())`: the board size computed by
`Grid.build` (`int` truncates; the value is nonnegative). -/
def decSize (a b : ℕ) : ℕ :=
  let v := mulDec (sqrtDec a) (sqrtDec b)
  (v.num.fdiv v.den).toNat

/-- `Grid.build(n_sectors, n_regions)`: the markers from `build_markers` and
one cell per spot of `itertools.product(range(size), repeat=2)`, in product
order. -/
def build (nSectors nRegions : ℕ) (rng : ℕ → ℕ) : Option Grid :=
  (build_markers rng nSectors).map fun ms =>
    let size := decSize nSectors nRegions
    { markers := ms
      cells := (List.range size).flatMap fun (x : ℕ) =>
        (List.range size).map fun (y : ℕ) => ((x : ℤ), (y : ℤ)) }

/-! ## Concrete fixtures used by the witnesses -/

/-- A 4 × 4 grid's spot list, in `itertools.product` order. -/
def wCells4 : List Spot :=
  [((0 : ℤ), (0 : ℤ)), (0, 1), (0, 2), (0, 3), (1, 0), (1, 1), (1, 2), (1, 3),
    (2, 0), (2, 1), (2, 2), (2, 3), (3, 0), (3, 1), (3, 2), (3, 3)]

/-- A random stream for the partition witness: draws 0, 0, 0, 1, 0, 1, … -/
def wRng : ℕ → ℕ := fun c => if c = 3 ∨ c = 5 then 1 else 0

/-- A 2 × 2 grid's spot list. -/
def wCells2 : List Spot := [((0 : ℤ), (0 : ℤ)), (0, 1), (1, 0), (1, 1)]

/-- A placed marker of value 1/9 at (0, 0). -/
def wM1 : Marker := ⟨1, frac 1 9, ⟨(0, 0)⟩⟩

/-- A placed marker of value 2/9 at (1, 1). -/
def wM2 : Marker := ⟨2, frac 2 9, ⟨(1, 1)⟩⟩

/-- The winning Option of the two-marker game witness: moving onto (1, 1)
with result 1/4 combines with the marker there for total 1/18. -/
def wWin : Opt := ⟨wM1, ⟨(1, 1)⟩, frac 1 4, some wM2, some (frac 1 18)⟩

/-- A bare Option with no transit. -/
def wOpt1 : Opt := ⟨wM1, ⟨(0, 1)⟩, frac 1 6, none, none⟩

/-- A two-marker grid before marking. -/
def wGridA : Grid :=
  ⟨[⟨1, some (frac 1 9), none⟩, ⟨2, some (frac 2 9), none⟩],
    [((0 : ℤ), (0 : ℤ)), (1, 1)]⟩

/-- `wGridA` after `mark` with the single cell (1, 1): the first marker is
placed, the second is left untouched. -/
def wGridB : Grid :=
  ⟨[⟨1, some (frac 1 9), some ⟨(1, 1)⟩⟩, ⟨2, some (frac 2 9), none⟩],
    [((0 : ℤ), (0 : ℤ)), (1, 1)]⟩

/-! ## Helper lemmas -/

/-- `Fraction.__mul__` agrees with multiplication on `ℚ`: the arithmetic is
exact rational arithmetic. -/
theorem fracMul_eq_mul (a b : ℚ) : fracMul a b = a * b := by
  rw [fracMul, Rat.mkRat_eq_div]
  push_cast
  rw [← div_mul_div_comm, Rat.num_div_den, Rat.num_div_den]

/-- The pair list fed to the `results` generator: position `k` holds
`(k, c - k)`. -/
theorem range_zip_reverse (n : ℕ) :
    (List.range n).zip (List.range n).reverse =
      (List.range n).map fun k => (k, n - 1 - k) := by
  apply List.ext_getElem
  · simp
  · intro i h₁ h₂
    simp only [List.getElem_zip, List.getElem_map, List.getElem_range,
      List.getElem_reverse, List.length_range]

/-- `resultsAux` as a `filterMap` over its pair list. -/
theorem resultsAux_eq_filterMap (num : ℤ) (den : ℕ) (l : List (ℕ × ℕ)) :
    resultsAux num den l = l.filterMap fun p =>
      if (den + p.2) % 10 = 0 then none
      else some (frac ((num + (p.1 : ℤ)) % 10) ((den + p.2) % 10)) := by
  induction l with
  | nil => rfl
  | cons p rest ih =>
      obtain ⟨n, d⟩ := p
      by_cases h : (den + d) % 10 = 0 <;>
        simp [resultsAux, List.filterMap_cons, h, ih]

/-- `Marker.results` enumerated over `k = 0 … cardinal`: yield
`Fraction((num + k) % 10, (den + (cardinal - k)) % 10)` unless the
denominator is zero. -/
theorem results_eq_filterMap (v : ℚ) (c : ℕ) :
    results v c = (List.range (c + 1)).filterMap fun k =>
      if (v.den + (c - k)) % 10 = 0 then none
      else some (frac ((v.num + (k : ℤ)) % 10) ((v.den + (c - k)) % 10)) := by
  rw [results, range_zip_reverse, resultsAux_eq_filterMap, List.filterMap_map]
  rfl

/-- Length accounting for a `filterMap` that drops exactly the elements
satisfying `P`. -/
theorem length_filterMap_ite {α β : Type} (P : α → Prop) [DecidablePred P]
    (g : α → β) (l : List α) :
    (l.filterMap fun a => if P a then none else some (g a)).length +
      (l.filter fun a => decide (P a)).length = l.length := by
  induction l with
  | nil => rfl
  | cons a rest ih =>
      by_cases h : P a <;>
        simp [List.filterMap_cons, List.filter_cons, h, ← ih] <;> omega

/-- A duplicate-free list whose elements are pairwise equal has at most one
element. -/
theorem length_le_one_of_nodup_all_eq {α : Type} {l : List α} (hn : l.Nodup)
    (h : ∀ a ∈ l, ∀ b ∈ l, a = b) : l.length ≤ 1 := by
  match l with
  | [] => simp
  | [a] => simp
  | a :: b :: rest =>
      exfalso
      have hab : a = b := h a (by simp) b (by simp)
      rw [List.nodup_cons] at hn
      exact hn.1 (hab ▸ List.mem_cons_self b rest)

/-! ## C4 and C9: the result sequence -/

/-- C4: for a marker of value `v = n/d` (`n`, `d` the stored numerator and
denominator) and destination value `c`, the result sequence yields, for `k`
from 0 to `c` in that order, the rational with numerator `(n + k) mod 10`
and denominator `(d + (c - k)) mod 10`, omitting exactly the `k` whose
denominator is 0; the sequence has length at most `c + 1`, and every
numerator/denominator pair used lies in `[0, 9]`. -/
theorem results_enumeration (v : ℚ) (c : ℕ) :
    results v c = ((List.range (c + 1)).filterMap fun k =>
      if (v.den + (c - k)) % 10 = 0 then none
      else some (frac ((v.num + (k : ℤ)) % 10) ((v.den + (c - k)) % 10))) ∧
    (results v c).length ≤ c + 1 ∧
    ∀ k, k ≤ c → (v.den + (c - k)) % 10 ≠ 0 →
      0 ≤ (v.num + (k : ℤ)) % 10 ∧ (v.num + (k : ℤ)) % 10 ≤ 9 ∧
        1 ≤ (v.den + (c - k)) % 10 ∧ (v.den + (c - k)) % 10 ≤ 9 := by
  refine ⟨results_eq_filterMap v c, ?_, ?_⟩
  · calc (results v c).length
        ≤ (List.range (c + 1)).length := by
          rw [results_eq_filterMap]
          exact List.length_filterMap_le _ _
      _ = c + 1 := by simp
  · intro k _ hden
    refine ⟨Int.emod_nonneg _ (by norm_num), ?_, ?_, ?_⟩
    · have := Int.emod_lt_of_pos (v.num + (k : ℤ)) (show (0:ℤ) < 10 by norm_num)
      omega
    · omega
    · have := Nat.mod_lt (v.den + (c - k)) (show 0 < 10 by norm_num)
      omega

/-- C9: a marker of value `0/9` (stored as the normalised `Fraction(0, 9)`)
and destination value 0 yields exactly one candidate, the rational
`Fraction(0 % 10, 9 % 10) = Fraction(0, 9)`, i.e. zero. -/
theorem results_zero_ninth :
    results (frac 0 9) 0 = [frac (0 % 10) (9 % 10)] ∧ frac (0 % 10) (9 % 10) = 0 := by
  constructor <;> decide

/-! ## C6: option enumeration -/

/-- The inner transit loop is a `map` over the transit markers. -/
theorem transitOpts_eq_map (self : Marker) (cell : Cell) (r : ℚ) (ts : List Marker) :
    transitOpts self cell r ts =
      ts.map fun t => ⟨self, cell, r, some t, some (fracMul r t.value)⟩ := by
  induction ts with
  | nil => rfl
  | cons t rest ih => simp [transitOpts, ih]

/-- The generator of `Marker.options` as a `flatMap` over the results. -/
theorem optionsGo_eq_flatMap (self : Marker) (cell : Cell) (ts : List Marker)
    (rs : List ℚ) :
    optionsGo self cell ts rs = rs.flatMap fun r =>
      ⟨self, cell, r, none, none⟩ ::
        ts.map fun t => ⟨self, cell, r, some t, some (fracMul r t.value)⟩ := by
  induction rs with
  | nil => rfl
  | cons r rest ih => simp [optionsGo, transitOpts_eq_map, ih]

/-- Length of the generated option list: one bare Option plus one per transit
marker, for each result. -/
theorem optionsGo_length (self : Marker) (cell : Cell) (ts : List Marker)
    (rs : List ℚ) :
    (optionsGo self cell ts rs).length = rs.length * (1 + ts.length) := by
  induction rs with
  | nil => simp [optionsGo]
  | cons r rest ih =>
      simp only [optionsGo, List.length_cons, List.length_append,
        transitOpts_eq_map, List.length_map, ih]
      ring

/-- C6: `options(m, cell)` emits, for each result `r` in generation order,
first the bare Option `(m, cell, r, None, None)`, then one Option
`(m, cell, r, t, r * t.value)` for each other marker `t` whose current cell
transits the destination, in grid insertion order, the product being exact
rational multiplication; nothing else and no reordering, as the length
accounting confirms. -/
theorem options_enumeration (ms : List Marker) (m : Marker) (cell : Cell) :
    options ms m cell =
      ((results m.value cell.value).flatMap fun r =>
        ⟨m, cell, r, none, none⟩ ::
          (ms.filter fun t => t.id != m.id && t.cell.transits cell).map fun t =>
            ⟨m, cell, r, some t, some (r * t.value)⟩) ∧
    (options ms m cell).length =
      (results m.value cell.value).length *
        (1 + (ms.filter fun t => t.id != m.id && t.cell.transits cell).length) := by
  constructor
  · rw [options, optionsGo_eq_flatMap]
    simp [fracMul_eq_mul]
  · rw [options, optionsGo_length]

/-! ## C2: the selection rule -/

/-- On a nonempty candidate list, `select` returns the first goal-total
candidate if any, else the candidate at the drawn index. -/
theorem select_eq_of_ne_nil {goal : ℚ} {opts : List Opt} (hne : opts ≠ []) (k : ℕ) :
    select goal opts k =
      some (match opts.find? (fun o => o.total == some goal) with
        | some o => o
        | none => opts.getD (k % opts.length) default) := by
  have h1 : ¬(opts.isEmpty = true) := fun hh => hne (List.isEmpty_iff.mp hh)
  rw [select, if_neg h1]

/-- Whatever `select` returns is one of the candidates. -/
theorem select_mem {goal : ℚ} {opts : List Opt} {k : ℕ} {o : Opt}
    (h : select goal opts k = some o) : o ∈ opts := by
  have hne : opts ≠ [] := by
    intro he
    rw [he, select] at h
    simp at h
  rw [select_eq_of_ne_nil hne] at h
  have hlen : 0 < opts.length := List.length_pos.mpr hne
  have hlt : k % opts.length < opts.length := Nat.mod_lt _ hlen
  rcases hf : opts.find? (fun o => o.total == some goal) with _ | o'
  · rw [hf] at h
    simp only [Option.some.injEq] at h
    rw [List.getD_eq_getElem?_getD, List.getElem?_eq_getElem hlt] at h
    simp only [Option.getD_some] at h
    exact h ▸ List.getElem_mem hlt
  · rw [hf] at h
    simp only [Option.some.injEq] at h
    exact h ▸ List.mem_of_find?_eq_some hf

/-- C2: if a candidate whose `total` equals the goal exists, `select` returns
the first such candidate in iteration order, independently of the random
draw; otherwise the drawn index `i` (for a uniform draw, `i` ranges over all
positions) selects the candidate at position `i`, always a member of the
list.  The third conjunct ties this to the marker turn of the game loop. -/
theorem game_selection_rule (cells : List Spot) (goal : ℚ) (opts : List Opt)
    (markers : List Marker) (j k kk i : ℕ) (hne : opts ≠ []) (hi : i < opts.length) :
    ((∃ o ∈ opts, o.total = some goal) →
      select goal opts k = select goal opts kk ∧
      ∃ o pre post, select goal opts k = some o ∧ o.total = some goal ∧
        opts = pre ++ o :: post ∧ ∀ o' ∈ pre, o'.total ≠ some goal) ∧
    ((∀ o ∈ opts, o.total ≠ some goal) →
      select goal opts i = some (opts.get ⟨i, hi⟩) ∧
      ∀ kk', ∃ o, select goal opts kk' = some o ∧ o ∈ opts) ∧
    (∀ ms chosen, markerTurn cells goal markers j k = some (ms, chosen) →
      select goal (collectOptions cells markers (markers.getD j default)) k =
        some chosen) := by
  refine ⟨?_, ?_, ?_⟩
  · rintro ⟨o, ho, hgoal⟩
    have hsome : (opts.find? fun o => o.total == some goal).isSome := by
      rw [List.find?_isSome]
      exact ⟨o, ho, by simp [hgoal]⟩
    rcases hf : opts.find? (fun o => o.total == some goal) with _ | o'
    · rw [hf] at hsome; simp at hsome
    · have hsel : ∀ m, select goal opts m = some o' := by
        intro m
        rw [select_eq_of_ne_nil hne, hf]
      refine ⟨by rw [hsel k, hsel kk], o', ?_⟩
      rcases List.find?_eq_some.mp hf with ⟨hp, pre, post, hsplit, hpre⟩
      refine ⟨pre, post, hsel k, by simpa using hp, hsplit, ?_⟩
      intro x hx hcon
      have := hpre x hx
      simp [hcon] at this
  · intro hnone
    have hf : opts.find? (fun o => o.total == some goal) = none := by
      rw [List.find?_eq_none]
      intro x hx
      simp [hnone x hx]
    constructor
    · rw [select_eq_of_ne_nil hne, hf]
      have hmod : i % opts.length = i := Nat.mod_eq_of_lt hi
      simp only [hmod, List.getD_eq_getElem?_getD, List.getElem?_eq_getElem hi,
        Option.getD_some, List.get_eq_getElem]
    · intro kk'
      have hsel : select goal opts kk' =
          some (opts.getD (kk' % opts.length) default) := by
        rw [select_eq_of_ne_nil hne, hf]
      exact ⟨_, hsel, select_mem hsel⟩
  · intro ms chosen hmt
    rw [markerTurn] at hmt
    rcases hsel : select goal (collectOptions cells markers (markers.getD j default)) k
      with _ | c
    · rw [hsel] at hmt; simp at hmt
    · rw [hsel] at hmt
      simp at hmt
      rw [hmt.2]

/-! ## C10: candidate lists are never empty -/

/-- Every cell value is one of 1, 3, 5, 7. -/
theorem cell_value_cases (c : Cell) :
    c.value = 1 ∨ c.value = 3 ∨ c.value = 5 ∨ c.value = 7 := by
  rw [Cell.value]
  split_ifs <;> simp

/-- Length accounting of the result sequence: the skipped indices are exactly
the zero denominators. -/
theorem results_length_add_zeros (v : ℚ) (c : ℕ) :
    (results v c).length +
      ((List.range (c + 1)).filter fun k =>
        decide ((v.den + (c - k)) % 10 = 0)).length = c + 1 := by
  rw [results_eq_filterMap]
  have := length_filterMap_ite (fun k => (v.den + (c - k)) % 10 = 0)
    (fun k => frac ((v.num + (k : ℤ)) % 10) ((v.den + (c - k)) % 10))
    (List.range (c + 1))
  simpa using this

/-- For `c ≤ 8` the `c + 1` denominators come from consecutive integers, so
at most one of them is divisible by 10. -/
theorem zeros_le_one (v : ℚ) (c : ℕ) (hc : c ≤ 8) :
    ((List.range (c + 1)).filter fun k =>
      decide ((v.den + (c - k)) % 10 = 0)).length ≤ 1 := by
  apply length_le_one_of_nodup_all_eq ((List.nodup_range _).filter _)
  intro a ha b hb
  rw [List.mem_filter, List.mem_range] at ha hb
  have ha2 := of_decide_eq_true ha.2
  have hb2 := of_decide_eq_true hb.2
  have ha1 := ha.1
  have hb1 := hb.1
  omega

/-- `options` emits at least one Option for any destination cell. -/
theorem options_ne_nil (ms : List Marker) (m : Marker) (cell : Cell) :
    options ms m cell ≠ [] := by
  have hval := cell_value_cases cell
  have h1 : 1 ≤ cell.value := by omega
  have h8 : cell.value ≤ 8 := by omega
  have hz := zeros_le_one m.value cell.value h8
  have hlen := results_length_add_zeros m.value cell.value
  have hres : 1 ≤ (results m.value cell.value).length := by omega
  apply List.ne_nil_of_length_pos
  rw [(options_enumeration ms m cell).2]
  have : 1 ≤ 1 + (ms.filter fun t => t.id != m.id && t.cell.transits cell).length := by
    omega
  exact Nat.mul_pos hres this

/-- C10: for a set value `v` and destination value `1 ≤ c ≤ 8`, at most one
of the `c + 1` denominators is zero, the result sequence misses exactly the
zero denominators (hence at least `max c 1` minus that one, and at least `c`,
results); consequently `options` always emits at least one Option (cell
values are in {1, 3, 5, 7}), and the game loop's random choice is never
applied to an empty candidate list when the marker's zone holds a cell other
than its current one. -/
theorem candidates_never_empty (v : ℚ) (c : ℕ) (cells : List Spot)
    (ms : List Marker) (m : Marker) (cell : Cell) (goal : ℚ) (k : ℕ)
    (hc1 : 1 ≤ c) (hc8 : c ≤ 8) :
    ((List.range (c + 1)).filter fun j =>
      decide ((v.den + (c - j)) % 10 = 0)).length ≤ 1 ∧
    (results v c).length +
      ((List.range (c + 1)).filter fun j =>
        decide ((v.den + (c - j)) % 10 = 0)).length = c + 1 ∧
    max c 1 - ((List.range (c + 1)).filter fun j =>
      decide ((v.den + (c - j)) % 10 = 0)).length ≤ (results v c).length ∧
    c ≤ (results v c).length ∧
    (cell.value = 1 ∨ cell.value = 3 ∨ cell.value = 5 ∨ cell.value = 7) ∧
    options ms m cell ≠ [] ∧
    ((∃ s ∈ zone cells m.cell, s ≠ m.cell.spot) →
      (select goal (collectOptions cells ms m) k).isSome) := by
  have hz := zeros_le_one v c hc8
  have hlen := results_length_add_zeros v c
  refine ⟨hz, hlen, by omega, by omega, cell_value_cases cell, options_ne_nil ms m cell, ?_⟩
  rintro ⟨s, hs, hsne⟩
  have hmem : s ∈ (zone cells m.cell).filter fun x => x != m.cell.spot := by
    rw [List.mem_filter]
    exact ⟨hs, by simpa using hsne⟩
  have hcol : collectOptions cells ms m ≠ [] := by
    rw [collectOptions]
    intro hnil
    rw [List.flatMap_eq_nil_iff] at hnil
    exact options_ne_nil ms m ⟨s⟩ (hnil s hmem)
  rw [select_eq_of_ne_nil hcol]
  rfl

/-! ## C1: the partitioning invariant -/

/-- The transit relation is symmetric. -/
theorem transits_symm (a b : Cell) : a.transits b = b.transits a := by
  rw [Cell.transits, Cell.transits, ← Int.natAbs_neg (b.spot.1 - a.spot.1),
    ← Int.natAbs_neg (b.spot.2 - a.spot.2)]
  ring_nf

/-- Zone membership: a grid spot of the same quadrant. -/
theorem mem_zone {cells : List Spot} {c : Cell} {p : Spot} :
    p ∈ zone cells c ↔ p ∈ cells ∧ spotQuad p = spotQuad c.spot := by
  simp [zone, List.mem_filter]

/-- A `getD` at a reduced random index is a member. -/
theorem getD_mem_of_ne_nil {α : Type} {l : List α} (h : l ≠ []) (k : ℕ) (d : α) :
    l.getD (k % l.length) d ∈ l := by
  have hlen := List.length_pos.mpr h
  have hlt : k % l.length < l.length := Nat.mod_lt _ hlen
  rw [List.getD_eq_getElem?_getD, List.getElem?_eq_getElem hlt]
  exact List.getElem_mem hlt

/-- The accepted-placement relation maintained by `partitionLoop`: distinct
quadrants and no transit. -/
def PlacedApart (a b : Spot) : Prop :=
  spotQuad a ≠ spotQuad b ∧ Cell.transits ⟨a⟩ ⟨b⟩ = false

/-- Loop invariant of `Grid.partition`: starting from accepted cells that are
pairwise apart, with a pool inside the grid avoiding every accepted zone, any
returned list has exactly `n` cells, pairwise apart. -/
theorem partitionLoop_spec (cells : List Spot) (n : ℕ) (rng : ℕ → ℕ) :
    ∀ fuel acc pool c l,
      partitionLoop cells n rng fuel acc pool c = some l →
      acc.length ≤ n →
      (∀ p ∈ pool, p ∈ cells) →
      (∀ p ∈ pool, ∀ a ∈ acc, spotQuad p ≠ spotQuad a) →
      acc.Pairwise PlacedApart →
      l.length = n ∧ l.Pairwise PlacedApart := by
  intro fuel
  induction fuel with
  | zero =>
      intro acc pool c l h
      simp [partitionLoop] at h
  | succ f ih =>
      intro acc pool c l h hlen hsub hquad hpw
      rw [partitionLoop] at h
      by_cases hn : n ≤ acc.length
      · rw [if_pos hn] at h
        simp only [Option.some.injEq] at h
        subst h
        exact ⟨Nat.le_antisymm hlen hn, hpw⟩
      · rw [if_neg hn] at h
        by_cases hpool : pool.isEmpty = true
        · rw [if_pos hpool] at h
          simp at h
        · rw [if_neg hpool] at h
          have hpne : pool ≠ [] := fun he => hpool (by simp [he])
          have hcellmem : pool.getD (rng c % pool.length) (0, 0) ∈ pool :=
            getD_mem_of_ne_nil hpne (rng c) (0, 0)
          set cell := pool.getD (rng c % pool.length) (0, 0) with hcell
          by_cases htr : (acc.any fun a => Cell.transits ⟨cell⟩ ⟨a⟩) = true
          · rw [if_pos htr] at h
            exact ih acc pool (c + 1) l h hlen hsub hquad hpw
          · rw [if_neg htr] at h
            have htr' : ∀ a ∈ acc, Cell.transits ⟨cell⟩ ⟨a⟩ = false := by
              have := List.any_eq_false.mp (Bool.eq_false_iff.mpr htr)
              intro a ha
              exact Bool.eq_false_iff.mpr (this a ha)
            apply ih _ _ _ _ h
            · have : acc.length < n := Nat.lt_of_not_le hn
              simp only [List.length_append, List.length_cons, List.length_nil]
              omega
            · intro p hp
              exact hsub p (List.mem_of_mem_filter hp)
            · intro p hp a ha
              have hppool : p ∈ pool := List.mem_of_mem_filter hp
              rcases List.mem_append.mp ha with ha' | ha'
              · exact hquad p hppool a ha'
              · have ha'' : a = cell := by simpa using ha'
                intro hq
                rw [ha''] at hq
                have hz : p ∈ zone cells ⟨cell⟩ :=
                  mem_zone.mpr ⟨hsub p hppool, hq⟩
                have hfa := (List.mem_filter.mp hp).2
                simp [hz] at hfa
            · rw [List.pairwise_append]
              refine ⟨hpw, by simp, ?_⟩
              intro a ha b hb
              have hb' : b = cell := by simpa using hb
              rw [hb']
              refine ⟨(hquad cell hcellmem a ha).symm, ?_⟩
              rw [transits_symm]
              exact htr' a ha

/-- C1: any cell list returned by `partition()` has exactly one cell per
marker, no two of its cells share a quadrant (so no two zones overlap), and
no two of its cells transit each other. -/
theorem partition_disjoint (cells : List Spot) (n : ℕ) (rng : ℕ → ℕ) (fuel : ℕ)
    (l : List Spot) (h : partition cells n rng fuel = some l) :
    l.length = n ∧ l.Pairwise PlacedApart :=
  partitionLoop_spec cells n rng fuel [] cells.dedup 0 l h (by simp)
    (fun p hp => List.mem_dedup.mp hp) (by simp) (by simp)

/-! ## C3 and C5: the game loop -/

/-- A move applied by the game loop: whenever its `total` is set, it came
from a combination with another marker, recorded in `transit`. -/
def MoveSound (o : Opt) : Prop :=
  o.total.isSome → ∃ t, o.transit = some t ∧ t.id ≠ o.marker.id

/-- Every Option emitted by `Marker.options` is sound. -/
theorem mem_options_sound {ms : List Marker} {m : Marker} {cell : Cell} {o : Opt}
    (h : o ∈ options ms m cell) : MoveSound o := by
  rw [options, optionsGo_eq_flatMap] at h
  rw [List.mem_flatMap] at h
  obtain ⟨r, _, hmem⟩ := h
  rcases List.mem_cons.mp hmem with hbase | hcomb
  · subst hbase
    intro hsome
    simp at hsome
  · rw [List.mem_map] at hcomb
    obtain ⟨t, htmem, hto⟩ := hcomb
    subst hto
    intro _
    refine ⟨t, rfl, ?_⟩
    have := (List.mem_filter.mp htmem).2
    simp only [Bool.and_eq_true, bne_iff_ne] at this
    exact this.1

/-- Every Option a marker collects during its turn is sound. -/
theorem mem_collect_sound {cells : List Spot} {ms : List Marker} {m : Marker}
    {o : Opt} (h : o ∈ collectOptions cells ms m) : MoveSound o := by
  rw [collectOptions, List.mem_flatMap] at h
  obtain ⟨s, _, hmem⟩ := h
  exact mem_options_sound hmem

/-- A marker turn preserves the marker count and picks a collected
candidate. -/
theorem markerTurn_spec {cells : List Spot} {goal : ℚ} {ms : List Marker}
    {i k : ℕ} {ms' : List Marker} {chosen : Opt}
    (h : markerTurn cells goal ms i k = some (ms', chosen)) :
    ms'.length = ms.length ∧ chosen ∈ collectOptions cells ms (ms.getD i default) := by
  rw [markerTurn] at h
  rcases hsel : select goal (collectOptions cells ms (ms.getD i default)) k with _ | c
  · rw [hsel] at h; simp at h
  · rw [hsel] at h
    simp at h
    obtain ⟨hms, hc⟩ := h
    subst hc
    rw [← hms]
    exact ⟨by simp, select_mem hsel⟩

/-- Invariants of one pass over the markers: marker count preserved, at most
`rem` new moves appended after `acc`, every new move sound, a winning pass
ends with a goal-total move, and a non-winning pass appends no goal-total
move. -/
theorem runTurnAux_spec (cells : List Spot) (goal : ℚ) (rng : ℕ → ℕ) :
    ∀ rem ms i c acc ms' moves won c',
      runTurnAux cells goal rng rem ms i c acc = some (ms', moves, won, c') →
      ms'.length = ms.length ∧
      moves.length ≤ acc.length + rem ∧
      (∀ o ∈ moves, o ∈ acc ∨ MoveSound o) ∧
      (won = true → ∃ last, moves.getLast? = some last ∧ last.total = some goal) ∧
      (won = false → ∀ o ∈ moves, o ∈ acc ∨ o.total ≠ some goal) := by
  intro rem
  induction rem with
  | zero =>
      intro ms i c acc ms' moves won c' h
      simp only [runTurnAux, Option.some.injEq, Prod.mk.injEq] at h
      obtain ⟨h1, h2, h3, _⟩ := h
      subst h1; subst h2; subst h3
      refine ⟨rfl, by simp, fun o ho => Or.inl ho, by simp, fun _ o ho => Or.inl ho⟩
  | succ r ih =>
      intro ms i c acc ms' moves won c' h
      rw [runTurnAux] at h
      rcases hmt : markerTurn cells goal ms i (rng c) with _ | p
      · rw [hmt] at h; simp at h
      · rw [hmt] at h
        obtain ⟨ms₁, chosen⟩ := p
        have hspec := markerTurn_spec hmt
        have hsound : MoveSound chosen := mem_collect_sound hspec.2
        simp only [Option.bind_eq_bind, Option.some_bind] at h
        by_cases hb : (chosen.total == some goal) = true
        · rw [if_pos hb] at h
          simp only [Option.some.injEq, Prod.mk.injEq] at h
          obtain ⟨h1, h2, h3, _⟩ := h
          subst h1; subst h2; subst h3
          have hgoal : chosen.total = some goal := by simpa using hb
          refine ⟨hspec.1, by simp, ?_, ?_, by simp⟩
          · intro o ho
            rcases List.mem_append.mp ho with ho' | ho'
            · exact Or.inl ho'
            · have : o = chosen := by simpa using ho'
              exact this ▸ Or.inr hsound
          · intro _
            exact ⟨chosen, List.getLast?_concat acc, hgoal⟩
        · rw [if_neg hb] at h
          have hne : chosen.total ≠ some goal := by
            intro hc
            exact hb (by simp [hc])
          obtain ⟨i1, i2, i3, i4, i5⟩ := ih ms₁ (i + 1) (c + 1) (acc ++ [chosen])
            ms' moves won c' h
          refine ⟨i1.trans hspec.1, by simp at i2; omega, ?_, i4, ?_⟩
          · intro o ho
            rcases i3 o ho with ho' | ho'
            · rcases List.mem_append.mp ho' with ho'' | ho''
              · exact Or.inl ho''
              · have : o = chosen := by simpa using ho''
                exact this ▸ Or.inr hsound
            · exact Or.inr ho'
          · intro hw o ho
            rcases i5 hw o ho with ho' | ho'
            · rcases List.mem_append.mp ho' with ho'' | ho''
              · exact Or.inl ho''
              · have : o = chosen := by simpa using ho''
                exact this ▸ Or.inr hne
            · exact Or.inr ho'

/-- Invariants of the turn-limit loop: the move log grows by at most the
marker count per turn, all moves are sound, a won run ends with a goal-total
move and an exhausted run contains none. -/
theorem gameAux_spec (cells : List Spot) (goal : ℚ) (rng : ℕ → ℕ) :
    ∀ fuel ms c acc moves won,
      gameAux cells goal rng fuel ms c acc = some (moves, won) →
      (∀ o ∈ acc, MoveSound o) →
      (∀ o ∈ acc, o.total ≠ some goal) →
      moves.length ≤ acc.length + fuel * ms.length ∧
      (∀ o ∈ moves, MoveSound o) ∧
      (won = true → ∃ last, moves.getLast? = some last ∧ last.total = some goal) ∧
      (won = false → ∀ o ∈ moves, o.total ≠ some goal) := by
  intro fuel
  induction fuel with
  | zero =>
      intro ms c acc moves won h hs hg
      simp only [gameAux, Option.some.injEq, Prod.mk.injEq] at h
      obtain ⟨h1, h2⟩ := h
      subst h1; subst h2
      exact ⟨by simp, hs, by simp, fun _ => hg⟩
  | succ f ih =>
      intro ms c acc moves won h hs hg
      rw [gameAux] at h
      rcases hrt : runTurnAux cells goal rng ms.length ms 0 c acc with _ | q
      · rw [hrt] at h; simp at h
      · rw [hrt] at h
        obtain ⟨ms₁, moves₁, won₁, c₁⟩ := q
        obtain ⟨r1, r2, r3, r4, r5⟩ := runTurnAux_spec cells goal rng
          ms.length ms 0 c acc ms₁ moves₁ won₁ c₁ hrt
        simp only [Option.bind_eq_bind, Option.some_bind] at h
        have hsound₁ : ∀ o ∈ moves₁, MoveSound o := by
          intro o ho
          rcases r3 o ho with ho' | ho'
          · exact hs o ho'
          · exact ho'
        by_cases hw : won₁ = true
        · rw [if_pos hw] at h
          simp only [Option.some.injEq, Prod.mk.injEq] at h
          obtain ⟨h1, h2⟩ := h
          subst h1; subst h2
          refine ⟨?_, hsound₁, fun _ => r4 hw, by simp⟩
          have : ms.length ≤ (f + 1) * ms.length :=
            Nat.le_mul_of_pos_left ms.length (by omega)
          omega
        · have hw' : won₁ = false := by
            cases won₁
            · rfl
            · exact absurd rfl hw
          rw [hw'] at h
          simp only [Bool.false_eq_true, if_false] at h
          have hgoal₁ : ∀ o ∈ moves₁, o.total ≠ some goal := by
            intro o ho
            rcases r5 hw' o ho with ho' | ho'
            · exact hg o ho'
            · exact ho'
          obtain ⟨g1, g2, g3, g4⟩ := ih ms₁ c₁ moves₁ moves won h hsound₁ hgoal₁
          refine ⟨?_, g2, g3, g4⟩
          rw [r1] at g1
          have hmul : (f + 1) * ms.length = f * ms.length + ms.length := by ring
          omega

/-- C3: a `game()` run returns early (in state `Won`) exactly when the move
just applied has `total` equal to the goal; in that case that move is the
last entry of the returned log, its `total` equals the goal rational exactly,
and the Option record identifies the acting marker (its `marker` field) and
the non-`None` transit marker it combined with, a marker with a different
id. -/
theorem game_win_characterisation (cells : List Spot) (markers : List Marker)
    (limit : ℕ) (goal : ℚ) (rng : ℕ → ℕ) (moves : List Opt) (won : Bool)
    (h : game cells markers limit goal rng = some (moves, won)) :
    (won = true ↔ ∃ last, moves.getLast? = some last ∧ last.total = some goal) ∧
    (won = true → ∃ last, moves.getLast? = some last ∧ last.total = some goal ∧
      ∃ t, last.transit = some t ∧ t.id ≠ last.marker.id) := by
  rw [game] at h
  obtain ⟨g1, g2, g3, g4⟩ := gameAux_spec cells goal rng limit markers 0 [] moves won h
    (by simp) (by simp)
  constructor
  · constructor
    · exact g3
    · rintro ⟨last, hl, ht⟩
      by_contra hnw
      have hw' : won = false := by
        cases won
        · rfl
        · exact absurd rfl hnw
      exact g4 hw' last (List.mem_of_getLast?_eq_some hl) ht
  · intro hw
    obtain ⟨last, hl, ht⟩ := g3 hw
    have hsound := g2 last (List.mem_of_getLast?_eq_some hl)
    obtain ⟨t, htr, hid⟩ := hsound (by rw [ht]; rfl)
    exact ⟨last, hl, ht, t, htr, hid⟩

/-- C5 (amended): whenever `game()` returns a move log — that is, no marker
turn ran out of candidate Options — the log holds at most
`turn_limit × marker_count` moves, and the run ended either `Won`
(`won = true`) or `Exhausted` (`won = false`); an empty candidate list
instead aborts the run (`none`), as the counterexample shows. -/
theorem game_moves_bounded (cells : List Spot) (markers : List Marker)
    (limit : ℕ) (goal : ℚ) (rng : ℕ → ℕ) (moves : List Opt) (won : Bool)
    (h : game cells markers limit goal rng = some (moves, won)) :
    moves.length ≤ limit * markers.length := by
  rw [game] at h
  have := (gameAux_spec cells goal rng limit markers 0 [] moves won h
    (by simp) (by simp)).1
  simpa using this

/-! ## C5 counterexample and C8 -/

/-- C5 counterexample: on a one-cell grid the single marker's zone holds no
cell other than its own, its candidate list is empty, and `game()` aborts
with `IndexError` instead of ending `Won` or `Exhausted` — a third way for a
run to end, refuting the claim as stated. -/
theorem game_aborts_on_empty_candidates :
    game [((0 : ℤ), (0 : ℤ))] [⟨1, frac 1 9, ⟨(0, 0)⟩⟩] 1 (frac 3 16)
      (fun _ => 0) = none := by
  decide

/-- Positional specification of the `markZip` loop. -/
theorem markZip_spec (cells : List Spot) :
    ∀ args ms ms', markZip cells args ms = some ms' →
      ms'.length = ms.length ∧
      ∀ i : ℕ,
        (ms'.getD i default).id = (ms.getD i default).id ∧
        (ms'.getD i default).value = (ms.getD i default).value ∧
        (i < args.length → i < ms.length →
          (ms'.getD i default).cell = some ⟨(args.getD i default).spot⟩) ∧
        (args.length ≤ i →
          (ms'.getD i default).cell = (ms.getD i default).cell) := by
  intro args
  induction args with
  | nil =>
      intro ms ms' h
      simp only [markZip, Option.some.injEq] at h
      subst h
      exact ⟨rfl, fun i => ⟨rfl, rfl, by simp, fun _ => rfl⟩⟩
  | cons a rest ih =>
      intro ms ms' h
      cases ms with
      | nil =>
          simp only [markZip, Option.some.injEq] at h
          subst h
          exact ⟨rfl, fun i => ⟨rfl, rfl, by simp, fun _ => rfl⟩⟩
      | cons m ms0 =>
          rw [markZip] at h
          by_cases hc : cells.contains a.spot = true
          · rw [if_pos hc] at h
            cases hrec : markZip cells rest ms0 with
            | none => rw [hrec] at h; simp at h
            | some r =>
                rw [hrec] at h
                simp only [Option.map_some', Option.some.injEq] at h
                subst h
                obtain ⟨ihlen, ihspec⟩ := ih ms0 r hrec
                refine ⟨by simp [ihlen], ?_⟩
                intro i
                cases i with
                | zero =>
                    refine ⟨rfl, rfl, fun _ _ => rfl, ?_⟩
                    intro habs
                    simp at habs
                | succ n =>
                    simp only [List.getD_cons_succ, List.length_cons]
                    obtain ⟨j1, j2, j3, j4⟩ := ihspec n
                    exact ⟨j1, j2, fun h1 h2 => j3 (by omega) (by omega),
                      fun h1 => j4 (by omega)⟩
          · rw [if_neg hc] at h
            simp at h

/-- C8: `mark(cells...)` pairs the supplied cells positionally against the
markers in insertion order — the i-th marker's cell becomes the grid-owned
cell at the i-th supplied cell's coordinate; with fewer cells than markers
the zip stops early and every marker beyond the supplied count keeps its
`cell` unchanged; `id` and `value` are untouched in every case, as is the
cell mapping. -/
theorem mark_positional_update (g : Grid) (args : List Cell) (g2 : Grid)
    (h : mark g args = some g2) :
    g2.cells = g.cells ∧
    g2.markers.length = g.markers.length ∧
    ∀ i : ℕ,
      (g2.markers.getD i default).id = (g.markers.getD i default).id ∧
      (g2.markers.getD i default).value = (g.markers.getD i default).value ∧
      (i < args.length → i < g.markers.length →
        (g2.markers.getD i default).cell = some ⟨(args.getD i default).spot⟩) ∧
      (args.length ≤ i →
        (g2.markers.getD i default).cell = (g.markers.getD i default).cell) := by
  rw [mark] at h
  cases hz : markZip g.cells args g.markers with
  | none => rw [hz] at h; simp at h
  | some ms' =>
      rw [hz] at h
      simp only [Option.map_some', Option.some.injEq] at h
      subst h
      obtain ⟨hlen, hspec⟩ := markZip_spec g.cells args g.markers ms' hz
      exact ⟨rfl, hlen, hspec⟩

/-! ## C7: Grid.build -/

/-- In a duplicate-free list, the element at index `i` does not survive the
removal of index `i`. -/
theorem not_mem_eraseIdx_of_nodup {α : Type} {l : List α} {i : ℕ}
    (hi : i < l.length) (hnd : l.Nodup) : l[i] ∉ l.eraseIdx i := by
  have hsplit : l.take i ++ l[i] :: l.drop (i + 1) = l := by
    rw [← List.drop_eq_getElem_cons hi, List.take_append_drop]
  intro hmem
  rw [List.eraseIdx_eq_take_drop_succ] at hmem
  have hnd2 : (l.take i ++ l[i] :: l.drop (i + 1)).Nodup := by
    rw [hsplit]; exact hnd
  rw [List.nodup_append] at hnd2
  obtain ⟨_, h2, hdisj⟩ := hnd2
  rcases List.mem_append.mp hmem with hm | hm
  · exact hdisj hm (List.mem_cons_self _ _)
  · exact (List.nodup_cons.mp h2).1 hm

/-- `random.sample` specification: when the request does not exceed the
population, it yields that many values, all members, without replacement
(duplicate-free if the population is). -/
theorem sampleList_spec (rng : ℕ → ℕ) :
    ∀ k pop c, k ≤ pop.length →
      ∃ vs, sampleList rng k pop c = some vs ∧ vs.length = k ∧
        (∀ v ∈ vs, v ∈ pop) ∧ (pop.Nodup → vs.Nodup) := by
  intro k
  induction k with
  | zero =>
      intro pop c _
      exact ⟨[], rfl, rfl, by simp, fun _ => List.nodup_nil⟩
  | succ n ih =>
      intro pop c h
      have hpne : pop ≠ [] := by
        intro he; rw [he] at h; simp at h
      have hlen : 0 < pop.length := List.length_pos.mpr hpne
      have hemp : ¬(pop.isEmpty = true) := fun hh => hpne (List.isEmpty_iff.mp hh)
      have hilt : rng c % pop.length < pop.length := Nat.mod_lt _ hlen
      have hlen2 : n ≤ (pop.eraseIdx (rng c % pop.length)).length := by
        rw [List.length_eraseIdx_of_lt hilt]; omega
      obtain ⟨vs, hvs, hvslen, hsub, hnd⟩ :=
        ih (pop.eraseIdx (rng c % pop.length)) (c + 1) hlen2
      have hgd : pop.getD (rng c % pop.length) 0 = pop[rng c % pop.length] := by
        rw [List.getD_eq_getElem?_getD, List.getElem?_eq_getElem hilt]; rfl
      refine ⟨pop.getD (rng c % pop.length) 0 :: vs, ?_, by simp [hvslen], ?_, ?_⟩
      · rw [sampleList, if_neg hemp]
        simp only [hvs, Option.map_some']
      · intro v hv
        rcases List.mem_cons.mp hv with h' | h'
        · exact h' ▸ getD_mem_of_ne_nil hpne (rng c) 0
        · exact List.mem_of_mem_eraseIdx (hsub v h')
      · intro hpnd
        rw [List.nodup_cons]
        refine ⟨?_, hnd (hpnd.sublist (List.eraseIdx_sublist pop _))⟩
        intro hvmem
        have := hsub _ hvmem
        rw [hgd] at this
        exact not_mem_eraseIdx_of_nodup hilt hpnd this

/-- The cell list built by `Grid.build` covers exactly the square
`[0, size) × [0, size)`. -/
theorem build_cells_mem (size : ℕ) (s : Spot) :
    (s ∈ (List.range size).flatMap fun (x : ℕ) =>
        (List.range size).map fun (y : ℕ) => ((x : ℤ), (y : ℤ))) ↔
      0 ≤ s.1 ∧ s.1 < (size : ℤ) ∧ 0 ≤ s.2 ∧ s.2 < (size : ℤ) := by
  constructor
  · intro hs
    rw [List.mem_flatMap] at hs
    obtain ⟨x, hx, hs⟩ := hs
    rw [List.mem_map] at hs
    obtain ⟨y, hy, hxy⟩ := hs
    rw [List.mem_range] at hx
    rw [List.mem_range] at hy
    rw [← hxy]
    exact ⟨Int.natCast_nonneg x, by show (x : ℤ) < (size : ℤ); exact_mod_cast hx,
      Int.natCast_nonneg y, by show (y : ℤ) < (size : ℤ); exact_mod_cast hy⟩
  · rintro ⟨h1, h2, h3, h4⟩
    rw [List.mem_flatMap]
    refine ⟨s.1.toNat, ?_, ?_⟩
    · rw [List.mem_range]; omega
    · rw [List.mem_map]
      refine ⟨s.2.toNat, ?_, ?_⟩
      · rw [List.mem_range]; omega
      · rw [Int.toNat_of_nonneg h1, Int.toNat_of_nonneg h3]

set_option maxRecDepth 8000 in
/-- C7 counterexample: at `(n_sectors, n_regions) = (2, 2)` the 28-digit
`Decimal` computation rounds `sqrt(2) * sqrt(2)` down to
`1.999…9`, so `int()` truncates the board size to 1 and `build` produces the
single-cell domain `{(0, 0)}`, while the floor of the exact real product
`√2·√2 = 2` is 2, which would demand the domain `[0, 2) × [0, 2)`. -/
theorem build_size_counterexample :
    (build 2 2 (fun _ => 0)).map (fun g => g.cells) = some [((0 : ℤ), (0 : ℤ))] ∧
    decSize 2 2 = 1 ∧
    ⌊Real.sqrt 2 * Real.sqrt 2⌋ = 2 := by
  refine ⟨by decide, by decide, ?_⟩
  rw [Real.mul_self_sqrt (by norm_num)]
  norm_num

/-- C7 (amended): for `1 ≤ n_sectors ≤ 6` and `n_regions ≥ 1`, `build`
produces a cell mapping whose domain is exactly `[0, size) × [0, size)` for
the size the code computes (`int(Decimal(a).sqrt() * Decimal(b).sqrt())` at
context precision 28 — which can fall one short of the floor of the exact
real product, e.g. at (2, 2) or (2, 8)), and `n_sectors` markers with
pairwise distinct rational values drawn from the fixed set
`{1/9, 2/9, 4/9, 5/9, 7/9, 8/9}`; for `n_sectors > 6`, `random.sample`
raises instead. -/
theorem build_produces (a b : ℕ) (rng : ℕ → ℕ) (ha1 : 1 ≤ a) (ha6 : a ≤ 6)
    (hb : 1 ≤ b) :
    ∃ g, build a b rng = some g ∧
      (∀ s : Spot, s ∈ g.cells ↔
        0 ≤ s.1 ∧ s.1 < (decSize a b : ℤ) ∧ 0 ≤ s.2 ∧ s.2 < (decSize a b : ℤ)) ∧
      g.markers.length = a ∧
      (∀ m ∈ g.markers, ∃ v, m.value = some v ∧ v ∈ markerValues) ∧
      (g.markers.map fun m => m.value).Nodup := by
  have hpop : a ≤ markerValues.length := by
    rw [show markerValues.length = 6 from rfl]; omega
  obtain ⟨vs, hvs, hvslen, hsub, hnd⟩ := sampleList_spec rng a markerValues 0 hpop
  have hmnd : markerValues.Nodup := by decide
  refine ⟨⟨vs.enum.map fun nv =>
      ({ id := nv.1 + 1, value := some nv.2, cell := none } : ProtoMarker),
    (List.range (decSize a b)).flatMap fun (x : ℕ) =>
      (List.range (decSize a b)).map fun (y : ℕ) => ((x : ℤ), (y : ℤ))⟩,
    ?_, ?_, ?_, ?_, ?_⟩
  · rw [build, build_markers, hvs]
    rfl
  · intro s
    exact build_cells_mem (decSize a b) s
  · simp [hvslen]
  · intro m hm
    rw [List.mem_map] at hm
    obtain ⟨nv, hnv, hmv⟩ := hm
    refine ⟨nv.2, by rw [← hmv], hsub _ ?_⟩
    have hsnd : nv.2 ∈ List.map Prod.snd vs.enum := List.mem_map_of_mem Prod.snd hnv
    rw [List.enum_eq_enumFrom, List.enumFrom_map_snd] at hsnd
    exact hsnd
  · rw [List.map_map, show ((fun m : ProtoMarker => m.value) ∘ fun nv : ℕ × ℚ =>
      ({ id := nv.1 + 1, value := some nv.2, cell := none } : ProtoMarker)) =
        (some ∘ Prod.snd) from rfl, ← List.map_map]
    rw [List.enum_eq_enumFrom, List.enumFrom_map_snd]
    exact (hnd hmnd).map (Option.some_injective ℚ)

/-! ## Witnesses -/

/-- C1 witness: a run of `partition` on the 4 × 4 grid with four markers. -/
theorem partition_disjoint_witness :
    ([((0 : ℤ), (0 : ℤ)), (0, 2), (2, 1), (2, 3)] : List Spot).length = 4 ∧
    ([((0 : ℤ), (0 : ℤ)), (0, 2), (2, 1), (2, 3)] : List Spot).Pairwise PlacedApart :=
  partition_disjoint wCells4 4 wRng 10
    [((0 : ℤ), (0 : ℤ)), (0, 2), (2, 1), (2, 3)] (by decide)

/-- C2 witness: on the candidate list `[wOpt1, wWin]` with goal 1/18, the
winning Option `wWin` is selected at every random draw, after no goal-total
predecessor. -/
theorem game_selection_rule_witness :
    select (frac 1 18) [wOpt1, wWin] 0 = select (frac 1 18) [wOpt1, wWin] 5 ∧
    ∃ o pre post, select (frac 1 18) [wOpt1, wWin] 0 = some o ∧
      o.total = some (frac 1 18) ∧ [wOpt1, wWin] = pre ++ o :: post ∧
      ∀ o' ∈ pre, o'.total ≠ some (frac 1 18) :=
  (game_selection_rule [] (frac 1 18) [wOpt1, wWin] [] 0 0 5 0 (by decide)
    (by decide)).1 (by decide)

/-- C3 witness: the two-marker game on the 2 × 2 grid ends `Won` in one move
with total 1/18. -/
theorem game_win_characterisation_witness :
    (true = true ↔ ∃ last, ([wWin] : List Opt).getLast? = some last ∧
      last.total = some (frac 1 18)) ∧
    (true = true → ∃ last, ([wWin] : List Opt).getLast? = some last ∧
      last.total = some (frac 1 18) ∧
      ∃ t, last.transit = some t ∧ t.id ≠ last.marker.id) :=
  game_win_characterisation wCells2 [wM1, wM2] 1 (frac 1 18) (fun _ => 0)
    [wWin] true (by decide)

/-- C4 witness: the value 1/9 at destination value 7. -/
theorem results_enumeration_witness :
    (results (frac 1 9) 7).length ≤ 7 + 1 ∧
    (0 ≤ ((frac 1 9).num + (5 : ℤ)) % 10 ∧ ((frac 1 9).num + (5 : ℤ)) % 10 ≤ 9 ∧
      1 ≤ ((frac 1 9).den + (7 - 5)) % 10 ∧ ((frac 1 9).den + (7 - 5)) % 10 ≤ 9) :=
  ⟨(results_enumeration (frac 1 9) 7).2.1,
    (results_enumeration (frac 1 9) 7).2.2 5 (by decide) (by decide)⟩

/-- C5 witness: the winning two-marker run stays within the
`limit × markers` bound. -/
theorem game_moves_bounded_witness :
    ([wWin] : List Opt).length ≤ 1 * ([wM1, wM2] : List Marker).length :=
  game_moves_bounded wCells2 [wM1, wM2] 1 (frac 1 18) (fun _ => 0) [wWin] true
    (by decide)

/-- C7 witness: `build(2, 2)` succeeds with two distinct marker values and a
square domain of the computed size. -/
theorem build_produces_witness :
    ∃ g, build 2 2 (fun _ => 0) = some g ∧
      (∀ s : Spot, s ∈ g.cells ↔
        0 ≤ s.1 ∧ s.1 < (decSize 2 2 : ℤ) ∧ 0 ≤ s.2 ∧ s.2 < (decSize 2 2 : ℤ)) ∧
      g.markers.length = 2 ∧
      (∀ m ∈ g.markers, ∃ v, m.value = some v ∧ v ∈ markerValues) ∧
      (g.markers.map fun m => m.value).Nodup :=
  build_produces 2 2 (fun _ => 0) (by decide) (by decide) (by decide)

/-- C8 witness: marking `wGridA` with one cell places the first marker at
(1, 1) and leaves the second marker's cell and value untouched. -/
theorem mark_positional_update_witness :
    (wGridB.markers.getD 0 default).cell =
      some ⟨(([(⟨(1, 1)⟩ : Cell)].getD 0 default)).spot⟩ ∧
    (wGridB.markers.getD 1 default).cell = (wGridA.markers.getD 1 default).cell ∧
    (wGridB.markers.getD 1 default).value = (wGridA.markers.getD 1 default).value :=
  ⟨((mark_positional_update wGridA [⟨(1, 1)⟩] wGridB (by decide)).2.2 0).2.2.1
      (by decide) (by decide),
    ((mark_positional_update wGridA [⟨(1, 1)⟩] wGridB (by decide)).2.2 1).2.2.2
      (by decide),
    ((mark_positional_update wGridA [⟨(1, 1)⟩] wGridB (by decide)).2.2 1).2.1⟩

/-- C10 witness: the marker of value 1/9 has a full candidate list at the
cell (1, 1) and its turn's random choice operates on a nonempty list. -/
theorem candidates_never_empty_witness :
    7 ≤ (results (frac 1 9) 7).length ∧
    options [wM1, wM2] wM1 ⟨(1, 1)⟩ ≠ [] ∧
    (select (frac 3 16) (collectOptions wCells2 [wM1, wM2] wM1) 0).isSome :=
  ⟨(candidates_never_empty (frac 1 9) 7 wCells2 [wM1, wM2] wM1 ⟨(1, 1)⟩
      (frac 3 16) 0 (by decide) (by decide)).2.2.2.1,
    (candidates_never_empty (frac 1 9) 7 wCells2 [wM1, wM2] wM1 ⟨(1, 1)⟩
      (frac 3 16) 0 (by decide) (by decide)).2.2.2.2.2.1,
    (candidates_never_empty (frac 1 9) 7 wCells2 [wM1, wM2] wM1 ⟨(1, 1)⟩
      (frac 3 16) 0 (by decide) (by decide)).2.2.2.2.2.2 (by decide)⟩

end Sagids
